import Mathlib

/-!
# A shallow embedding of the MLeM virtual machine

This file embeds the MLeM 64-bit virtual machine (`src/lib.rs`,
`src/virtual_machine/mod.rs`) into Lean and proves properties of its
instruction semantics, memory model, stack discipline, bounded runner and
program serialization.

Modelling conventions:
* A machine word (Rust `u64`) is a `Nat`; every arithmetic step that can
  overflow in the source is taken modulo `2 ^ 64`, mirroring the release-mode
  wrapping semantics the source relies on (`wrapping_add`, `wrapping_sub`,
  `sp -= 1`, `sp += 1`).
* A Rust operation that can panic (indexing a `Vec` out of bounds) is embedded
  as an `Option`-valued function; `none` is the panic.  Fallible outcomes that
  the source represents with the `Outcome` enum keep that representation.
* The bound I/O byte streams carry whole big-endian 64-bit words in the
  source (`read_u64`/`write_u64`); they are embedded as `List Nat`, with an
  exhausted input stream producing the read `Fault` of the source.
-/

set_option maxRecDepth 4000

namespace Mlem

/-- The `u64` modulus. -/
def wordSize : Nat := 2 ^ 64

/-- Rust `u64::wrapping_add`. -/
def wrapping_add (a b : Nat) : Nat := (a + b) % wordSize

/-- Rust `u64::wrapping_sub`: `(a - b)` modulo `2 ^ 64`. -/
def wrapping_sub (a b : Nat) : Nat := (a + (wordSize - b % wordSize)) % wordSize

/-- `Register` from `src/lib.rs`: R0-R7 general purpose, SP, BP. -/
inductive Register where
  | R0 | R1 | R2 | R3 | R4 | R5 | R6 | R7 | SP | BP
deriving DecidableEq, Repr

/-- `Address` from `src/lib.rs`: the operand forms. -/
inductive Address where
  | RegAbs (r : Register)
  | MemAbs (w : Nat)
  | MemReg (r : Register)
  | Literal (w : Nat)
deriving DecidableEq, Repr

/-- `Instruction` from `src/lib.rs`. -/
inductive Instruction where
  | NoOp
  | Zero (a : Address)
  | Move (a b : Address)
  | Output (a : Address)
  | Input (a : Address)
  | Add (a b : Address)
  | Sub (a b : Address)
  | Jump (a : Address)
  | JumpIfZero (a b : Address)
  | JumpNotZero (a b : Address)
  | Push (a : Address)
  | Pop (a : Address)
  | Halt
  | Illegal
deriving DecidableEq, Repr

/-- `Program = Vec<Instruction>`. -/
abbrev Program := List Instruction

/-- `Outcome` from `src/virtual_machine/mod.rs`. -/
inductive Outcome where
  | Halt
  | Fault (msg : String)
  | Continue
deriving DecidableEq, Repr

/-- The machine state of `struct Machine`.  The Rust `registers: [Nat; 8]`
array is embedded as eight named slots, exactly as `read_register` /
`write_register` address it; the I/O streams are word lists. -/
structure Machine where
  max_words : Nat
  reg0 : Nat
  reg1 : Nat
  reg2 : Nat
  reg3 : Nat
  reg4 : Nat
  reg5 : Nat
  reg6 : Nat
  reg7 : Nat
  sp : Nat
  bp : Nat
  ip : Nat
  memory : List Nat
  program : Program
  input : List Nat
  output : List Nat
deriving Repr

namespace Machine

/-- `Machine::new`: SP and BP start at `max_words - 1` (a `usize` subtraction
then cast to `u64`; wrapping, though every host uses `max_words ≥ 1`),
memory empty, program `[Illegal]`, IP 0, registers zeroed. -/
def new (max_words : Nat) (input : List Nat) : Machine where
  max_words := max_words
  reg0 := 0
  reg1 := 0
  reg2 := 0
  reg3 := 0
  reg4 := 0
  reg5 := 0
  reg6 := 0
  reg7 := 0
  sp := (max_words + (wordSize - 1)) % wordSize
  bp := (max_words + (wordSize - 1)) % wordSize
  ip := 0
  memory := []
  program := [Instruction.Illegal]
  input := input
  output := []

/-- `Machine::load_program`: replace the program and reset IP. -/
def load_program (m : Machine) (new : Program) : Machine :=
  { m with program := new, ip := 0 }

/-- `Machine::load_memory`: replace the memory vector wholesale. -/
def load_memory (m : Machine) (new : List Nat) : Machine :=
  { m with memory := new }

/-- `Machine::get_memory`. -/
def get_memory (m : Machine) : List Nat := m.memory

/-- `Machine::next_instr`: increment IP, fault when it passes the end. -/
def next_instr (m : Machine) : Machine × Outcome :=
  let m' : Machine := { m with ip := m.ip + 1 }
  if m'.ip ≥ m'.program.length then
    (m', Outcome.Fault ("IP beyond program length. IP = " ++ toString m'.ip ++
      ", length = " ++ toString m'.program.length))
  else
    (m', Outcome.Continue)

/-- `Machine::read_register`. -/
def read_register (m : Machine) (r : Register) : Nat :=
  match r with
  | Register.R0 => m.reg0
  | Register.R1 => m.reg1
  | Register.R2 => m.reg2
  | Register.R3 => m.reg3
  | Register.R4 => m.reg4
  | Register.R5 => m.reg5
  | Register.R6 => m.reg6
  | Register.R7 => m.reg7
  | Register.SP => m.sp
  | Register.BP => m.bp

/-- `Machine::write_register`. -/
def write_register (m : Machine) (r : Register) (v : Nat) : Machine :=
  match r with
  | Register.R0 => { m with reg0 := v }
  | Register.R1 => { m with reg1 := v }
  | Register.R2 => { m with reg2 := v }
  | Register.R3 => { m with reg3 := v }
  | Register.R4 => { m with reg4 := v }
  | Register.R5 => { m with reg5 := v }
  | Register.R6 => { m with reg6 := v }
  | Register.R7 => { m with reg7 := v }
  | Register.SP => { m with sp := v }
  | Register.BP => { m with bp := v }

/-- `Machine::write_memory`.  Faults when `l > max_words`; resizes to `l + 1`
zero-filled when `l > memory.len()`; then stores via `self.memory[l] = v`,
a `Vec` index that panics (`none`) when `l` is not in bounds — which happens
exactly when `l = memory.len()` survived both guards. -/
def write_memory (m : Machine) (l v : Nat) : Option (Machine × Outcome) :=
  if l > m.max_words then
    some (m, Outcome.Fault ("Tried to write out of available memory: " ++ toString l))
  else
    let mem := if l > m.memory.length
      then m.memory ++ List.replicate (l + 1 - m.memory.length) 0
      else m.memory
    if l < mem.length then
      some ({ m with memory := mem.set l v }, Outcome.Continue)
    else
      none

/-- `Machine::read_memory`.  Returns 0 above `max_words` or above the physical
length (both strict comparisons); otherwise indexes the vector, which panics
(`none`) when `l` equals the physical length. -/
def read_memory (m : Machine) (l : Nat) : Option Nat :=
  if l > m.max_words then
    some 0
  else if l > m.memory.length then
    some 0
  else
    m.memory[l]?

/-- `Machine::write_addr`. -/
def write_addr (m : Machine) (a : Address) (v : Nat) : Option (Machine × Outcome) :=
  match a with
  | Address.Literal l =>
      some (m, Outcome.Fault ("Tried to write " ++ toString v ++ " to literal " ++
        toString l ++ "."))
  | Address.RegAbs r => some (m.write_register r v, Outcome.Continue)
  | Address.MemAbs l => m.write_memory l v
  | Address.MemReg r => m.write_memory (m.read_register r) v

/-- `Machine::read_addr`. -/
def read_addr (m : Machine) (a : Address) : Option Nat :=
  match a with
  | Address.Literal v => some v
  | Address.RegAbs r => some (m.read_register r)
  | Address.MemAbs l => m.read_memory l
  | Address.MemReg r => m.read_memory (m.read_register r)

/-- `Machine::absolute_jump`. -/
def absolute_jump (m : Machine) (l : Nat) : Machine × Outcome :=
  if l < m.program.length then
    ({ m with ip := l }, Outcome.Continue)
  else
    (m, Outcome.Fault ("Attempt to jump to " ++ toString l ++
      " would overrun program of length " ++ toString m.program.length ++ "."))

/-- `Machine::ins_no_op`. -/
def ins_no_op (m : Machine) : Machine × Outcome := m.next_instr

/-- `Machine::ins_halt`. -/
def ins_halt (m : Machine) : Machine × Outcome := (m, Outcome.Halt)

/-- The source's repeated `match self.write_addr(..) { Continue => self.next_instr(), o => o }`
idiom: perform the write and advance only on `Continue`. -/
def write_and_advance (m : Machine) (a : Address) (v : Nat) : Option (Machine × Outcome) :=
  match m.write_addr a v with
  | none => none
  | some (m', Outcome.Continue) => some m'.next_instr
  | some (m', o) => some (m', o)

/-- `Machine::ins_move`: read `a`, write to `b`, advance on `Continue`. -/
def ins_move (m : Machine) (a b : Address) : Option (Machine × Outcome) :=
  match m.read_addr a with
  | none => none
  | some v => m.write_and_advance b v

/-- `Machine::ins_zero`. -/
def ins_zero (m : Machine) (a : Address) : Option (Machine × Outcome) :=
  m.write_and_advance a 0

/-- `Machine::ins_output`: append the read word to the output stream.  The
embedded stream (a word list) always accepts the write, as the `Cursor`
buffers of the host wrapper do. -/
def ins_output (m : Machine) (a : Address) : Option (Machine × Outcome) :=
  match m.read_addr a with
  | none => none
  | some v => some (Machine.next_instr { m with output := m.output ++ [v] })

/-- `Machine::ins_input`: take the next word from the input stream, faulting
when it is exhausted (the `read_u64` error path), then write and advance. -/
def ins_input (m : Machine) (a : Address) : Option (Machine × Outcome) :=
  match m.input with
  | [] => some (m, Outcome.Fault "Failed to read on input instruction: failed to fill whole buffer.")
  | v :: rest => Machine.write_and_advance { m with input := rest } a v

/-- `Machine::ins_generic_scalar`: read both operands, combine, store into
`a`, advance on `Continue`. -/
def ins_generic_scalar (m : Machine) (a b : Address) (f : Nat → Nat → Nat) :
    Option (Machine × Outcome) :=
  match m.read_addr a with
  | none => none
  | some value_a =>
    match m.read_addr b with
    | none => none
    | some value_b => m.write_and_advance a (f value_a value_b)

/-- `Machine::ins_jump`. -/
def ins_jump (m : Machine) (a : Address) : Option (Machine × Outcome) :=
  match m.read_addr a with
  | none => none
  | some addr => some (m.absolute_jump addr)

/-- `Machine::ins_generic_jump_single`: jump to `read a` when the predicate
holds of `read b`, otherwise advance. -/
def ins_generic_jump_single (m : Machine) (a b : Address) (f : Nat → Bool) :
    Option (Machine × Outcome) :=
  match m.read_addr a with
  | none => none
  | some value_a =>
    match m.read_addr b with
    | none => none
    | some value_b =>
      if f value_b then some (m.absolute_jump value_a) else some m.next_instr

/-- The body of `Machine::ins_push` after the SP decrement: fault at SP = 0,
otherwise store at SP — the outcome of that `write_memory` call is DISCARDED
by the source — and advance. -/
def push_store (m1 : Machine) (val : Nat) : Option (Machine × Outcome) :=
  if m1.sp ≤ 0 then
    some (m1, Outcome.Fault "Stack has overrun available memory!")
  else
    match m1.write_memory m1.sp val with
    | none => none
    | some (m2, _) => some m2.next_instr

/-- `Machine::ins_push`: read the operand, decrement SP (wrapping `u64`),
then guard and store via `push_store`. -/
def ins_push (m : Machine) (a : Address) : Option (Machine × Outcome) :=
  match m.read_addr a with
  | none => none
  | some val => push_store { m with sp := wrapping_sub m.sp 1 } val

/-- `Machine::ins_pop`: on an empty stack (SP ≥ BP) reset SP to BP and pop 0,
otherwise read `mem[SP]`; then increment SP (wrapping `u64`), write the value
to the destination and advance on `Continue`. -/
def pop_value (m : Machine) : Option (Machine × Nat) :=
  if m.sp ≥ m.bp then
    some ({ m with sp := m.bp }, 0)
  else
    match m.read_memory m.sp with
    | none => none
    | some v => some (m, v)

/-- The rest of `Machine::ins_pop` after the popped value is computed:
increment SP (wrapping `u64`), write the value to the destination and
advance on `Continue`. -/
def ins_pop (m : Machine) (a : Address) : Option (Machine × Outcome) :=
  match pop_value m with
  | none => none
  | some (m1, val) =>
    Machine.write_and_advance { m1 with sp := wrapping_add m1.sp 1 } a val

/-- `Machine::execute_next`: fetch `program[ip]` (a `Vec` index, panicking —
`none` — when IP is out of range) and dispatch. -/
def execute_next (m : Machine) : Option (Machine × Outcome) :=
  match m.program[m.ip]? with
  | none => none
  | some i =>
    match i with
    | Instruction.NoOp => some m.ins_no_op
    | Instruction.Zero a => m.ins_zero a
    | Instruction.Move a b => m.ins_move a b
    | Instruction.Output a => m.ins_output a
    | Instruction.Input a => m.ins_input a
    | Instruction.Add a b => m.ins_generic_scalar a b wrapping_add
    | Instruction.Sub a b => m.ins_generic_scalar a b wrapping_sub
    | Instruction.Jump a => m.ins_jump a
    | Instruction.JumpIfZero a b => m.ins_generic_jump_single a b (fun v => v == 0)
    | Instruction.JumpNotZero a b => m.ins_generic_jump_single a b (fun v => v != 0)
    | Instruction.Push a => m.ins_push a
    | Instruction.Pop a => m.ins_pop a
    | Instruction.Halt => some m.ins_halt
    | Instruction.Illegal => some (m, Outcome.Fault "Illegal instruction encountered.")

/-- `Machine::run_for`: execute at most `cycles` instructions, stopping early
on a non-`Continue` outcome and reporting how many instructions were charged
(`cycles - instructions_remaining`); the terminal step is not charged. -/
def run_for (m : Machine) (cycles : Nat) : Option (Machine × Outcome × Nat) :=
  match cycles with
  | 0 => some (m, Outcome.Continue, 0)
  | c + 1 =>
    match m.execute_next with
    | none => none
    | some (m', Outcome.Continue) =>
      match run_for m' c with
      | none => none
      | some (m'', o, k) => some (m'', o, k + 1)
    | some (m', o) => some (m', o, 0)

/-- `k` consecutive steps of `execute_next`, each of which must return
`Continue`; `none` when a step panics or is terminal before `k` steps. -/
def continue_steps (m : Machine) : Nat → Option Machine
  | 0 => some m
  | k + 1 =>
    match m.execute_next with
    | some (m', Outcome.Continue) => continue_steps m' k
    | _ => none

end Machine

/-- Whether an outcome is a `Fault`. -/
def Outcome.isFault : Outcome → Bool
  | Outcome.Fault _ => true
  | _ => false

/-- The memory-size relation a single machine operation establishes: the
memory cap is untouched and a physical memory length within
`max_words + 1` stays within `max_words + 1`. -/
def preserves_mem_bound (m m' : Machine) : Prop :=
  m'.max_words = m.max_words ∧
  (m.memory.length ≤ m.max_words + 1 → m'.memory.length ≤ m'.max_words + 1)

/-- Machine states reachable from construction through program loads,
`write_addr` calls and executed instructions (everything except
`load_memory`, which installs an arbitrary vector). -/
inductive Reached : Machine → Prop where
  | new : ∀ (mw : Nat) (input : List Nat), Reached (Machine.new mw input)
  | load_program : ∀ {m : Machine} (p : Program), Reached m → Reached (m.load_program p)
  | write_addr : ∀ {m m' : Machine} {o : Outcome} (a : Address) (v : Nat),
      Reached m → m.write_addr a v = some (m', o) → Reached m'
  | step : ∀ {m m' : Machine} {o : Outcome},
      Reached m → m.execute_next = some (m', o) → Reached m'

/-- A CBOR value, as far as the instruction serialization schema needs:
unsigned integers, text strings, arrays, and maps.

Modelled from the spec: the CBOR serializer itself lives in the `serde_cbor`
collaborator crate — this repository only carries the `Serialize` /
`Deserialize` derives on `Register`, `Address` and `Instruction` — so the
canonical encoding is modelled from §6 of the spec: externally tagged, "each
variant encoded as a single-entry mapping from the variant name to its
payload tuple", with payload-free variants encoded as their bare name. -/
inductive Cbor where
  | uint (n : Nat)
  | text (s : String)
  | arr (items : List Cbor)
  | map (entries : List (Cbor × Cbor))

/-- Modelled from the spec: encoding of a `Register` (a unit-only enum) as
its variant name. -/
def encodeRegister : Register → Cbor
  | Register.R0 => Cbor.text "R0"
  | Register.R1 => Cbor.text "R1"
  | Register.R2 => Cbor.text "R2"
  | Register.R3 => Cbor.text "R3"
  | Register.R4 => Cbor.text "R4"
  | Register.R5 => Cbor.text "R5"
  | Register.R6 => Cbor.text "R6"
  | Register.R7 => Cbor.text "R7"
  | Register.SP => Cbor.text "SP"
  | Register.BP => Cbor.text "BP"

/-- Modelled from the spec: decoding of a `Register`. -/
def decodeRegister : Cbor → Option Register
  | Cbor.text "R0" => some Register.R0
  | Cbor.text "R1" => some Register.R1
  | Cbor.text "R2" => some Register.R2
  | Cbor.text "R3" => some Register.R3
  | Cbor.text "R4" => some Register.R4
  | Cbor.text "R5" => some Register.R5
  | Cbor.text "R6" => some Register.R6
  | Cbor.text "R7" => some Register.R7
  | Cbor.text "SP" => some Register.SP
  | Cbor.text "BP" => some Register.BP
  | _ => none

/-- Modelled from the spec: externally-tagged encoding of an `Address`. -/
def encodeAddress : Address → Cbor
  | Address.RegAbs r => Cbor.map [(Cbor.text "RegAbs", encodeRegister r)]
  | Address.MemAbs w => Cbor.map [(Cbor.text "MemAbs", Cbor.uint w)]
  | Address.MemReg r => Cbor.map [(Cbor.text "MemReg", encodeRegister r)]
  | Address.Literal w => Cbor.map [(Cbor.text "Literal", Cbor.uint w)]

/-- Modelled from the spec: decoding of an `Address`. -/
def decodeAddress : Cbor → Option Address
  | Cbor.map [(Cbor.text "RegAbs", payload)] => (decodeRegister payload).map Address.RegAbs
  | Cbor.map [(Cbor.text "MemAbs", Cbor.uint w)] => some (Address.MemAbs w)
  | Cbor.map [(Cbor.text "MemReg", payload)] => (decodeRegister payload).map Address.MemReg
  | Cbor.map [(Cbor.text "Literal", Cbor.uint w)] => some (Address.Literal w)
  | _ => none

/-- Modelled from the spec: externally-tagged encoding of an `Instruction`;
two-operand variants carry their payload tuple as an array. -/
def encodeInstruction : Instruction → Cbor
  | Instruction.NoOp => Cbor.text "NoOp"
  | Instruction.Zero a => Cbor.map [(Cbor.text "Zero", encodeAddress a)]
  | Instruction.Move a b =>
      Cbor.map [(Cbor.text "Move", Cbor.arr [encodeAddress a, encodeAddress b])]
  | Instruction.Output a => Cbor.map [(Cbor.text "Output", encodeAddress a)]
  | Instruction.Input a => Cbor.map [(Cbor.text "Input", encodeAddress a)]
  | Instruction.Add a b =>
      Cbor.map [(Cbor.text "Add", Cbor.arr [encodeAddress a, encodeAddress b])]
  | Instruction.Sub a b =>
      Cbor.map [(Cbor.text "Sub", Cbor.arr [encodeAddress a, encodeAddress b])]
  | Instruction.Jump a => Cbor.map [(Cbor.text "Jump", encodeAddress a)]
  | Instruction.JumpIfZero a b =>
      Cbor.map [(Cbor.text "JumpIfZero", Cbor.arr [encodeAddress a, encodeAddress b])]
  | Instruction.JumpNotZero a b =>
      Cbor.map [(Cbor.text "JumpNotZero", Cbor.arr [encodeAddress a, encodeAddress b])]
  | Instruction.Push a => Cbor.map [(Cbor.text "Push", encodeAddress a)]
  | Instruction.Pop a => Cbor.map [(Cbor.text "Pop", encodeAddress a)]
  | Instruction.Halt => Cbor.text "Halt"
  | Instruction.Illegal => Cbor.text "Illegal"

/-- Decode a two-address payload and apply the variant constructor. -/
def decode2 (pa pb : Cbor) (f : Address → Address → Instruction) : Option Instruction :=
  match decodeAddress pa, decodeAddress pb with
  | some a, some b => some (f a b)
  | _, _ => none

/-- Decode a two-address payload tuple (an array) and apply the constructor. -/
def decodePair (payload : Cbor) (f : Address → Address → Instruction) : Option Instruction :=
  match payload with
  | Cbor.arr [pa, pb] => decode2 pa pb f
  | _ => none

/-- Modelled from the spec: decoding of the payload-free instruction variants
from their bare names. -/
def decodeNullary : String → Option Instruction
  | "NoOp" => some Instruction.NoOp
  | "Halt" => some Instruction.Halt
  | "Illegal" => some Instruction.Illegal
  | _ => none

/-- Modelled from the spec: decoding of a tagged instruction variant from its
variant name and payload. -/
def decodeTagged (tag : String) (payload : Cbor) : Option Instruction :=
  match tag with
  | "Zero" => (decodeAddress payload).map Instruction.Zero
  | "Move" => decodePair payload Instruction.Move
  | "Output" => (decodeAddress payload).map Instruction.Output
  | "Input" => (decodeAddress payload).map Instruction.Input
  | "Add" => decodePair payload Instruction.Add
  | "Sub" => decodePair payload Instruction.Sub
  | "Jump" => (decodeAddress payload).map Instruction.Jump
  | "JumpIfZero" => decodePair payload Instruction.JumpIfZero
  | "JumpNotZero" => decodePair payload Instruction.JumpNotZero
  | "Push" => (decodeAddress payload).map Instruction.Push
  | "Pop" => (decodeAddress payload).map Instruction.Pop
  | _ => none

/-- Modelled from the spec: decoding of an `Instruction` — a bare name for
payload-free variants, a single-entry map from the name otherwise. -/
def decodeInstruction : Cbor → Option Instruction
  | Cbor.text tag => decodeNullary tag
  | Cbor.map [(Cbor.text tag, payload)] => decodeTagged tag payload
  | _ => none

/-- Decode a list of serialized instructions, failing if any element fails. -/
def decodeInstructionList : List Cbor → Option (List Instruction)
  | [] => some []
  | c :: cs =>
    match decodeInstruction c, decodeInstructionList cs with
    | some i, some rest => some (i :: rest)
    | _, _ => none

/-- Modelled from the spec: a `Program` is serialized as the array of its
instructions. -/
def encodeProgram (p : Program) : Cbor := Cbor.arr (p.map encodeInstruction)

/-- Modelled from the spec: decoding of a serialized `Program`. -/
def decodeProgram : Cbor → Option Program
  | Cbor.arr items => decodeInstructionList items
  | _ => none

namespace Machine

theorem read_write_register_same (m : Machine) (r : Register) (v : Nat) :
    (m.write_register r v).read_register r = v := by
  cases r <;> rfl

theorem read_write_register_other {m : Machine} {r r' : Register} {v : Nat}
    (h : r' ≠ r) : (m.write_register r v).read_register r' = m.read_register r' := by
  cases r <;> cases r' <;> first | rfl | exact absurd rfl h

theorem write_register_memory (m : Machine) (r : Register) (v : Nat) :
    (m.write_register r v).memory = m.memory := by
  cases r <;> rfl

theorem write_register_max_words (m : Machine) (r : Register) (v : Nat) :
    (m.write_register r v).max_words = m.max_words := by
  cases r <;> rfl

theorem write_register_ip (m : Machine) (r : Register) (v : Nat) :
    (m.write_register r v).ip = m.ip := by
  cases r <;> rfl

theorem write_register_sp (m : Machine) (r : Register) (v : Nat)
    (h : r ≠ Register.SP) : (m.write_register r v).sp = m.sp := by
  cases r <;> first | rfl | exact absurd rfl h

theorem next_instr_fst (m : Machine) :
    (m.next_instr).1 = { m with ip := m.ip + 1 } := by
  show (if m.ip + 1 ≥ m.program.length then _ else _ : Machine × Outcome).1 = _
  split <;> rfl

theorem next_instr_continue (m : Machine) (h : m.ip + 1 < m.program.length) :
    m.next_instr = ({ m with ip := m.ip + 1 }, Outcome.Continue) := by
  unfold next_instr
  rw [if_neg]
  simpa using h

theorem read_register_set_ip (m : Machine) (x : Nat) (r : Register) :
    Machine.read_register { m with ip := x } r = m.read_register r := by
  cases r <;> rfl

theorem write_register_program (m : Machine) (r : Register) (v : Nat) :
    (m.write_register r v).program = m.program := by
  cases r <;> rfl

theorem pmb_refl (m : Machine) : preserves_mem_bound m m :=
  ⟨rfl, fun h => h⟩

theorem pmb_trans {m m1 m2 : Machine}
    (h1 : preserves_mem_bound m m1) (h2 : preserves_mem_bound m1 m2) :
    preserves_mem_bound m m2 :=
  ⟨h2.1.trans h1.1, fun h => h2.2 ((h1.1 ▸ h1.2 h : m1.memory.length ≤ m1.max_words + 1))⟩

theorem pmb_of_same {m m' : Machine} (hmax : m'.max_words = m.max_words)
    (hmem : m'.memory = m.memory) : preserves_mem_bound m m' :=
  ⟨hmax, fun h => by rw [hmax, hmem]; exact h⟩

theorem next_instr_pair {m m' : Machine} {o : Outcome}
    (h : m.next_instr = (m', o)) : m' = { m with ip := m.ip + 1 } := by
  rw [← Machine.next_instr_fst, h]

theorem absolute_jump_pair {m m' : Machine} {l : Nat} {o : Outcome}
    (h : m.absolute_jump l = (m', o)) : m' = { m with ip := l } ∨ m' = m := by
  unfold Machine.absolute_jump at h
  split at h
  · exact Or.inl (congrArg Prod.fst h.symm)
  · exact Or.inr (congrArg Prod.fst h.symm)

theorem write_memory_pmb {m m' : Machine} {l v : Nat} {o : Outcome}
    (h : m.write_memory l v = some (m', o)) : preserves_mem_bound m m' := by
  unfold Machine.write_memory at h
  split at h
  · injection h with h'
    obtain ⟨rfl, rfl⟩ := Prod.mk.inj h'
    exact pmb_refl m
  · simp only [] at h
    split at h
    all_goals split at h
    all_goals
      first
        | exact Option.noConfusion h
        | (injection h with h'
           obtain ⟨rfl, rfl⟩ := Prod.mk.inj h'
           refine ⟨rfl, fun hb => ?_⟩
           simp only [List.length_set, List.length_append, List.length_replicate]
           omega)

theorem write_addr_pmb {m m' : Machine} {a : Address} {v : Nat} {o : Outcome}
    (h : m.write_addr a v = some (m', o)) : preserves_mem_bound m m' := by
  cases a with
  | RegAbs r =>
      injection h with h'
      obtain ⟨rfl, rfl⟩ := Prod.mk.inj h'
      exact pmb_of_same (write_register_max_words m r v) (write_register_memory m r v)
  | MemAbs l => exact write_memory_pmb h
  | MemReg r => exact write_memory_pmb h
  | Literal l =>
      injection h with h'
      obtain ⟨rfl, rfl⟩ := Prod.mk.inj h'
      exact pmb_refl m

theorem advance_pmb {m0 m1 m' : Machine} {o : Outcome}
    (hbase : preserves_mem_bound m0 m1)
    (h : some m1.next_instr = some (m', o)) : preserves_mem_bound m0 m' := by
  injection h with h'
  rw [next_instr_pair h']
  exact pmb_trans hbase (pmb_of_same rfl rfl)

theorem write_advance_pmb {m0 m1 m' : Machine} {a : Address} {v : Nat} {o : Outcome}
    (hbase : preserves_mem_bound m0 m1)
    (h : m1.write_and_advance a v = some (m', o)) :
    preserves_mem_bound m0 m' := by
  unfold Machine.write_and_advance at h
  cases hw : m1.write_addr a v with
  | none => rw [hw] at h; exact Option.noConfusion h
  | some p =>
    obtain ⟨m2, o2⟩ := p
    rw [hw] at h
    cases o2 with
    | Continue => exact advance_pmb (pmb_trans hbase (write_addr_pmb hw)) h
    | Halt =>
        injection h with h'
        obtain ⟨rfl, rfl⟩ := Prod.mk.inj h'
        exact pmb_trans hbase (write_addr_pmb hw)
    | Fault s =>
        injection h with h'
        obtain ⟨rfl, rfl⟩ := Prod.mk.inj h'
        exact pmb_trans hbase (write_addr_pmb hw)

theorem ins_zero_pmb {m m' : Machine} {a : Address} {o : Outcome}
    (h : m.ins_zero a = some (m', o)) : preserves_mem_bound m m' := by
  unfold Machine.ins_zero at h
  exact write_advance_pmb (pmb_refl m) h

theorem ins_move_pmb {m m' : Machine} {a b : Address} {o : Outcome}
    (h : m.ins_move a b = some (m', o)) : preserves_mem_bound m m' := by
  unfold Machine.ins_move at h
  cases hr : m.read_addr a with
  | none => rw [hr] at h; exact Option.noConfusion h
  | some v =>
    rw [hr] at h
    have h2 : m.write_and_advance b v = some (m', o) := h
    exact write_advance_pmb (pmb_refl m) h2

theorem ins_output_pmb {m m' : Machine} {a : Address} {o : Outcome}
    (h : m.ins_output a = some (m', o)) : preserves_mem_bound m m' := by
  unfold Machine.ins_output at h
  cases hr : m.read_addr a with
  | none => rw [hr] at h; exact Option.noConfusion h
  | some v =>
    rw [hr] at h
    have h2 : some (Machine.next_instr { m with output := m.output ++ [v] }) =
        some (m', o) := h
    refine advance_pmb ?_ h2
    exact pmb_of_same rfl rfl

theorem ins_input_pmb {m m' : Machine} {a : Address} {o : Outcome}
    (h : m.ins_input a = some (m', o)) : preserves_mem_bound m m' := by
  unfold Machine.ins_input at h
  cases hi : m.input with
  | nil =>
      rw [hi] at h
      injection h with h'
      obtain ⟨rfl, rfl⟩ := Prod.mk.inj h'
      exact pmb_refl m
  | cons v rest =>
      rw [hi] at h
      have h2 : Machine.write_and_advance { m with input := rest } a v = some (m', o) := h
      refine write_advance_pmb ?_ h2
      exact pmb_of_same rfl rfl

theorem ins_generic_scalar_pmb {m m' : Machine} {a b : Address}
    {f : Nat → Nat → Nat} {o : Outcome}
    (h : m.ins_generic_scalar a b f = some (m', o)) : preserves_mem_bound m m' := by
  unfold Machine.ins_generic_scalar at h
  cases hra : m.read_addr a with
  | none => rw [hra] at h; exact Option.noConfusion h
  | some va =>
    rw [hra] at h
    cases hrb : m.read_addr b with
    | none => rw [hrb] at h; exact Option.noConfusion h
    | some vb =>
      rw [hrb] at h
      have h2 : m.write_and_advance a (f va vb) = some (m', o) := h
      exact write_advance_pmb (pmb_refl m) h2

theorem ins_jump_pmb {m m' : Machine} {a : Address} {o : Outcome}
    (h : m.ins_jump a = some (m', o)) : preserves_mem_bound m m' := by
  unfold Machine.ins_jump at h
  cases hr : m.read_addr a with
  | none => rw [hr] at h; exact Option.noConfusion h
  | some addr =>
    rw [hr] at h
    injection h with h'
    rcases absolute_jump_pair h' with h2 | h2 <;> rw [h2]
    · exact pmb_of_same rfl rfl
    · exact pmb_refl m

theorem ins_generic_jump_single_pmb {m m' : Machine} {a b : Address}
    {f : Nat → Bool} {o : Outcome}
    (h : m.ins_generic_jump_single a b f = some (m', o)) : preserves_mem_bound m m' := by
  unfold Machine.ins_generic_jump_single at h
  cases hra : m.read_addr a with
  | none => rw [hra] at h; exact Option.noConfusion h
  | some va =>
    rw [hra] at h
    cases hrb : m.read_addr b with
    | none => rw [hrb] at h; exact Option.noConfusion h
    | some vb =>
      rw [hrb] at h
      have h2 : (if f vb then some (m.absolute_jump va) else some m.next_instr) =
          some (m', o) := h
      split at h2
      · injection h2 with h'
        rcases absolute_jump_pair h' with h3 | h3 <;> rw [h3]
        · exact pmb_of_same rfl rfl
        · exact pmb_refl m
      · exact advance_pmb (pmb_refl m) h2

theorem push_store_pmb {m1 m' : Machine} {val : Nat} {o : Outcome}
    (h : m1.push_store val = some (m', o)) : preserves_mem_bound m1 m' := by
  unfold Machine.push_store at h
  split at h
  · injection h with h'
    obtain ⟨rfl, rfl⟩ := Prod.mk.inj h'
    exact pmb_refl m1
  · cases hw : m1.write_memory m1.sp val with
    | none => rw [hw] at h; exact Option.noConfusion h
    | some p =>
      obtain ⟨m2, o2⟩ := p
      rw [hw] at h
      exact advance_pmb (write_memory_pmb hw) h

theorem ins_push_pmb {m m' : Machine} {a : Address} {o : Outcome}
    (h : m.ins_push a = some (m', o)) : preserves_mem_bound m m' := by
  unfold Machine.ins_push at h
  cases hr : m.read_addr a with
  | none => rw [hr] at h; exact Option.noConfusion h
  | some val =>
    rw [hr] at h
    refine pmb_trans ?_ (push_store_pmb h)
    exact pmb_of_same rfl rfl

theorem pop_value_pmb {m m1 : Machine} {val : Nat}
    (h : m.pop_value = some (m1, val)) : preserves_mem_bound m m1 := by
  unfold Machine.pop_value at h
  split at h
  · injection h with h'
    obtain ⟨rfl, rfl⟩ := Prod.mk.inj h'
    exact pmb_of_same rfl rfl
  · cases hr : m.read_memory m.sp with
    | none => rw [hr] at h; exact Option.noConfusion h
    | some v =>
      rw [hr] at h
      injection h with h'
      obtain ⟨rfl, rfl⟩ := Prod.mk.inj h'
      exact pmb_refl m

theorem ins_pop_pmb {m m' : Machine} {a : Address} {o : Outcome}
    (h : m.ins_pop a = some (m', o)) : preserves_mem_bound m m' := by
  unfold Machine.ins_pop at h
  cases hv : m.pop_value with
  | none => rw [hv] at h; exact Option.noConfusion h
  | some p =>
    obtain ⟨m1, val⟩ := p
    rw [hv] at h
    have h2 : Machine.write_and_advance { m1 with sp := wrapping_add m1.sp 1 } a val =
        some (m', o) := h
    refine write_advance_pmb ?_ h2
    exact pmb_trans (pop_value_pmb hv) (pmb_of_same rfl rfl)

theorem execute_next_pmb {m m' : Machine} {o : Outcome}
    (h : m.execute_next = some (m', o)) : preserves_mem_bound m m' := by
  unfold Machine.execute_next at h
  cases hi : m.program[m.ip]? with
  | none => rw [hi] at h; exact Option.noConfusion h
  | some i =>
    rw [hi] at h
    cases i with
    | NoOp =>
        injection h with h'
        rw [next_instr_pair h']
        exact pmb_of_same rfl rfl
    | Zero a => exact ins_zero_pmb h
    | Move a b => exact ins_move_pmb h
    | Output a => exact ins_output_pmb h
    | Input a => exact ins_input_pmb h
    | Add a b => exact ins_generic_scalar_pmb h
    | Sub a b => exact ins_generic_scalar_pmb h
    | Jump a => exact ins_jump_pmb h
    | JumpIfZero a b => exact ins_generic_jump_single_pmb h
    | JumpNotZero a b => exact ins_generic_jump_single_pmb h
    | Push a => exact ins_push_pmb h
    | Pop a => exact ins_pop_pmb h
    | Halt =>
        injection h with h'
        obtain ⟨rfl, rfl⟩ := Prod.mk.inj h'
        exact pmb_refl m
    | Illegal =>
        injection h with h'
        obtain ⟨rfl, rfl⟩ := Prod.mk.inj h'
        exact pmb_refl m

theorem run_for_le : ∀ (N : Nat) (m m' : Machine) (o : Outcome) (k : Nat),
    m.run_for N = some (m', o, k) → k ≤ N ∧ (o = Outcome.Continue → k = N) := by
  intro N
  induction N with
  | zero =>
    intro m m' o k h
    have h0 : some (m, Outcome.Continue, 0) = some (m', o, k) := h
    injection h0 with h1
    obtain ⟨rfl, h2⟩ := Prod.mk.inj h1
    obtain ⟨rfl, rfl⟩ := Prod.mk.inj h2
    exact ⟨Nat.le_refl 0, fun _ => rfl⟩
  | succ c ih =>
    intro m m' o k h
    unfold Machine.run_for at h
    cases hs : m.execute_next with
    | none => rw [hs] at h; exact Option.noConfusion h
    | some p =>
      obtain ⟨m1, o1⟩ := p
      rw [hs] at h
      cases o1 with
      | Continue =>
        simp only [] at h
        cases hr : m1.run_for c with
        | none => rw [hr] at h; exact Option.noConfusion h
        | some q =>
          obtain ⟨m2, o2, k2⟩ := q
          rw [hr] at h
          simp only [] at h
          injection h with h1
          obtain ⟨rfl, h2⟩ := Prod.mk.inj h1
          obtain ⟨rfl, rfl⟩ := Prod.mk.inj h2
          obtain ⟨hle, hco⟩ := ih m1 m2 o2 k2 hr
          exact ⟨Nat.succ_le_succ hle, fun hc => by rw [hco hc]⟩
      | Halt =>
        injection h with h1
        obtain ⟨rfl, h2⟩ := Prod.mk.inj h1
        obtain ⟨rfl, rfl⟩ := Prod.mk.inj h2
        exact ⟨Nat.zero_le _, fun hc => Outcome.noConfusion hc⟩
      | Fault s =>
        injection h with h1
        obtain ⟨rfl, h2⟩ := Prod.mk.inj h1
        obtain ⟨rfl, rfl⟩ := Prod.mk.inj h2
        exact ⟨Nat.zero_le _, fun hc => Outcome.noConfusion hc⟩

theorem run_for_of_steps : ∀ (k : Nat) (m mk m' : Machine) (o : Outcome) (N : Nat),
    k < N → m.continue_steps k = some mk → mk.execute_next = some (m', o) →
    o ≠ Outcome.Continue → m.run_for N = some (m', o, k) := by
  intro k
  induction k with
  | zero =>
    intro m mk m' o N hN hcs hex hno
    have h0 : some m = some mk := hcs
    injection h0 with h1
    subst h1
    obtain ⟨N', rfl⟩ : ∃ x, N = x + 1 := ⟨N - 1, by omega⟩
    unfold Machine.run_for
    rw [hex]
    cases o with
    | Continue => exact absurd rfl hno
    | Halt => rfl
    | Fault s => rfl
  | succ k ih =>
    intro m mk m' o N hN hcs hex hno
    unfold Machine.continue_steps at hcs
    cases hs : m.execute_next with
    | none => rw [hs] at hcs; exact Option.noConfusion hcs
    | some p =>
      obtain ⟨m1, o1⟩ := p
      rw [hs] at hcs
      cases o1 with
      | Continue =>
        simp only [] at hcs
        obtain ⟨N', rfl⟩ : ∃ x, N = x + 1 := ⟨N - 1, by omega⟩
        unfold Machine.run_for
        rw [hs]
        simp only []
        rw [ih m1 mk m' o N' (by omega) hcs hex hno]
      | Halt => exact Option.noConfusion hcs
      | Fault s => exact Option.noConfusion hcs

end Machine

theorem wrapping_sub_int (u v : Nat) (hv : v < wordSize) :
    ((wrapping_sub u v : Nat) : Int) = ((u : Int) - (v : Int)) % ((wordSize : Nat) : Int) := by
  have hws : wordSize = 18446744073709551616 := by norm_num [wordSize]
  unfold wrapping_sub
  rw [hws] at hv ⊢
  rw [Nat.mod_eq_of_lt hv]
  omega

theorem decode_encode_register (r : Register) :
    decodeRegister (encodeRegister r) = some r := by
  cases r <;> rfl

theorem decode_encode_address (a : Address) :
    decodeAddress (encodeAddress a) = some a := by
  cases a with
  | RegAbs r => cases r <;> rfl
  | MemAbs w => rfl
  | MemReg r => cases r <;> rfl
  | Literal w => rfl

set_option maxHeartbeats 2000000 in
theorem decode_encode_instruction (i : Instruction) :
    decodeInstruction (encodeInstruction i) = some i := by
  cases i with
  | NoOp => rfl
  | Halt => rfl
  | Illegal => rfl
  | Zero a =>
      simp [encodeInstruction, decodeInstruction, decodeTagged, decode_encode_address]
  | Output a =>
      simp [encodeInstruction, decodeInstruction, decodeTagged, decode_encode_address]
  | Input a =>
      simp [encodeInstruction, decodeInstruction, decodeTagged, decode_encode_address]
  | Jump a =>
      simp [encodeInstruction, decodeInstruction, decodeTagged, decode_encode_address]
  | Push a =>
      simp [encodeInstruction, decodeInstruction, decodeTagged, decode_encode_address]
  | Pop a =>
      simp [encodeInstruction, decodeInstruction, decodeTagged, decode_encode_address]
  | Move a b =>
      simp [encodeInstruction, decodeInstruction, decodeTagged, decodePair, decode2,
        decode_encode_address]
  | Add a b =>
      simp [encodeInstruction, decodeInstruction, decodeTagged, decodePair, decode2,
        decode_encode_address]
  | Sub a b =>
      simp [encodeInstruction, decodeInstruction, decodeTagged, decodePair, decode2,
        decode_encode_address]
  | JumpIfZero a b =>
      simp [encodeInstruction, decodeInstruction, decodeTagged, decodePair, decode2,
        decode_encode_address]
  | JumpNotZero a b =>
      simp [encodeInstruction, decodeInstruction, decodeTagged, decodePair, decode2,
        decode_encode_address]

theorem decode_encode_instruction_list (l : List Instruction) :
    decodeInstructionList (l.map encodeInstruction) = some l := by
  induction l with
  | nil => rfl
  | cons i t ih => simp [decodeInstructionList, decode_encode_instruction, ih]

/-- C1: the claim says `write_addr(MemAbs(i), v)` returns `Continue` for every
`0 ≤ i ≤ MAX_WORDS`; but on a freshly constructed machine (empty memory) the
write at index 0 — equal to the physical memory length, which passes both
guards of `write_memory` unresized — hits the `Vec` index out of bounds and
panics (`none`) instead of continuing. -/
theorem write_addr_panics_at_physical_length :
    Machine.write_addr (Machine.new 128 []) (Address.MemAbs 0) 5 = none := rfl

/-- C2: the claim says `read_addr(MemAbs(l))` is total and returns 0 at any
index at or beyond the physical size; but on a freshly constructed machine
(empty memory) the read at index 0 — equal to the physical length, so both
strict `>` guards of `read_memory` fail — indexes the `Vec` out of bounds and
panics (`none`) instead of returning 0. -/
theorem read_addr_panics_at_physical_length :
    Machine.read_addr (Machine.new 128 []) (Address.MemAbs 0) = none := rfl

/-- C5: from a fresh machine with `MAX_WORDS = 128` (SP = BP = 127) running a
program of Push instructions with readable (literal) operands, the first
126 = MAX_WORDS − 2 pushes all continue (`run_for 126` charges all 126
cycles with outcome `Continue`), and the 127th = (MAX_WORDS − 1)-th push
faults with the stack-overflow guard, charged at 126 executed instructions. -/
theorem push_overflows_after_max_words_sub_two :
    (Machine.run_for
        (Machine.load_program (Machine.new 128 [])
          (List.replicate 128 (Instruction.Push (Address.Literal 42)))) 126).map
        (fun p => (p.2.1, p.2.2)) = some (Outcome.Continue, 126) ∧
    (Machine.run_for
        (Machine.load_program (Machine.new 128 [])
          (List.replicate 128 (Instruction.Push (Address.Literal 42)))) 127).map
        (fun p => (p.2.1, p.2.2)) =
      some (Outcome.Fault "Stack has overrun available memory!", 126) := by
  exact ⟨rfl, rfl⟩

/-- C3 counterexample: executing `Pop(RegAbs R0)` on a fresh machine with
SP = BP = 127 (empty stack) succeeds with `Continue` but leaves SP = 128,
not SP = BP = 127: the unconditional `sp += 1` of `ins_pop` runs after the
reset to BP, refuting "leaves SP equal to BP afterward". -/
theorem pop_empty_stack_sp_is_bp_plus_one :
    (Machine.execute_next
        (Machine.load_program (Machine.new 128 [])
          [Instruction.Pop (Address.RegAbs Register.R0), Instruction.Halt])).map
        (fun p => (p.1.sp, p.1.bp, p.2)) = some (128, 127, Outcome.Continue) := rfl

/-- C4 counterexample: from a fresh machine with `MAX_WORDS = 128`, a single
`write_addr(MemAbs(128), 1)` — an operation the claim covers — succeeds with
`Continue` and grows the memory vector to physical length 129 > 128,
refuting "memory size ≤ MAX_WORDS at all times". -/
theorem write_at_max_words_exceeds_bound :
    (Machine.write_addr (Machine.new 128 []) (Address.MemAbs 128) 1).map
        (fun p => (p.1.memory.length, p.1.max_words, p.2)) =
      some (129, 128, Outcome.Continue) := rfl

/-- C10 counterexample: on a machine with SP = 0 < BP = 127 and empty memory,
executing `Pop(Literal 5)` does not return a `Fault` at all: the stack read
`mem[SP]` at SP = 0 — equal to the physical memory length — indexes the `Vec`
out of bounds and panics (`none`), refuting "for every machine state,
executing Pop(Literal(w)) returns a Fault". -/
theorem pop_literal_panics_on_memory_length_read :
    Machine.execute_next
        { Machine.new 128 [] with
            sp := 0, program := [Instruction.Pop (Address.Literal 5)] } = none := rfl

/-- C3 (amended): for every machine state with SP ≥ BP (empty stack) and a
general-register (or BP) destination `RegAbs r` with `r ≠ SP`, executing
`Pop(RegAbs r)` writes 0 to the register, leaves SP equal to
(BP + 1) mod 2⁶⁴ — not BP — advances IP by one, and does not fault provided
the advanced IP is still inside the program. -/
theorem pop_empty_stack_writes_zero_and_bumps_sp (m : Machine) (r : Register)
    (hr : r ≠ Register.SP) (hsp : m.sp ≥ m.bp)
    (hins : m.program[m.ip]? = some (Instruction.Pop (Address.RegAbs r))) :
    (m.execute_next.map fun p => (p.1.read_register r, p.1.sp, p.1.ip)) =
      some (0, (m.bp + 1) % wordSize, m.ip + 1) ∧
    (m.ip + 1 < m.program.length →
      (m.execute_next.map fun p => p.2) = some Outcome.Continue) := by
  have hstep : m.execute_next =
      some (Machine.next_instr
        (Machine.write_register { m with sp := wrapping_add m.bp 1 } r 0)) := by
    simp only [Machine.execute_next, hins, Machine.ins_pop, Machine.pop_value, if_pos hsp,
      Machine.write_and_advance, Machine.write_addr]
  constructor
  · rw [hstep]
    cases r <;>
      first
        | exact absurd rfl hr
        | simp [Machine.next_instr_fst, Machine.write_register, Machine.read_register,
            wrapping_add]
  · intro hip
    rw [hstep]
    rw [Machine.next_instr_continue]
    · rfl
    · rw [Machine.write_register_ip, Machine.write_register_program]
      exact hip

/-- C9: `ins_push` discards the outcome of its `write_memory` call.  In any
state where the decremented SP exceeds MAX_WORDS (necessarily nonzero), a
`Push` with a readable operand leaves every memory cell untouched — the store
faulted internally and the fault was dropped — advances IP by one, and
returns the advance outcome, which is `Continue` whenever the advanced IP is
still inside the program. -/
theorem push_discards_write_fault (m : Machine) (a : Address) (val : Nat)
    (hins : m.program[m.ip]? = some (Instruction.Push a))
    (hread : m.read_addr a = some val)
    (hsp : wrapping_sub m.sp 1 > m.max_words) :
    (m.execute_next.map fun p => (p.1.memory, p.1.ip)) =
      some (m.memory, m.ip + 1) ∧
    (m.ip + 1 < m.program.length →
      (m.execute_next.map fun p => p.2) = some Outcome.Continue) := by
  have hstep : m.execute_next =
      some (Machine.next_instr { m with sp := wrapping_sub m.sp 1 }) := by
    have key : ∀ s : Nat, wrapping_sub m.sp 1 = s → s > m.max_words →
        m.execute_next = some (Machine.next_instr { m with sp := s }) := by
      intro s hs hgt
      have hnz : ¬ (s ≤ 0) :=
        Nat.not_le.mpr (Nat.lt_of_le_of_lt (Nat.zero_le _) hgt)
      have hwm : Machine.write_memory { m with sp := s } s val =
          some ({ m with sp := s },
            Outcome.Fault ("Tried to write out of available memory: " ++ toString s)) := by
        unfold Machine.write_memory
        exact if_pos hgt
      have h1 : m.execute_next = m.ins_push a := by
        unfold Machine.execute_next
        rw [hins]
      rw [h1]
      unfold Machine.ins_push
      rw [hread, hs]
      simp only [Machine.push_store, if_neg hnz, hwm]
    exact key (wrapping_sub m.sp 1) rfl hsp
  constructor
  · rw [hstep]
    simp only [Option.map_some', Machine.next_instr_fst]
  · intro hip
    rw [hstep, Machine.next_instr_continue]
    · rfl
    · exact hip

/-- C10 (amended): in every machine state in which the stack read cannot
panic — SP ≥ BP, or otherwise `read_memory` at SP is defined — executing
`Pop(Literal w)` returns a `Fault` (the literal write), yet SP has already
been changed before the fault: reset to BP first when SP ≥ BP, then
incremented by one mod 2⁶⁴; IP is unchanged.  (When SP happened to equal
BP + 1 the final state coincides with the initial one, so the claim's
"the machine state differs" holds except in that case; and in states where
SP < BP, SP ≤ MAX_WORDS and SP equals the physical memory length the
instruction panics instead of faulting.) -/
theorem pop_literal_faults_after_sp_update (m : Machine) (w : Nat)
    (hins : m.program[m.ip]? = some (Instruction.Pop (Address.Literal w)))
    (hsafe : m.sp ≥ m.bp ∨ (m.read_memory m.sp).isSome) :
    (m.execute_next.map fun p => (p.1.sp, p.1.ip, p.2.isFault)) =
      some (((if m.sp ≥ m.bp then m.bp else m.sp) + 1) % wordSize, m.ip, true) := by
  by_cases hsp : m.sp ≥ m.bp
  · simp only [Machine.execute_next, hins, Machine.ins_pop, Machine.pop_value, if_pos hsp,
      Machine.write_and_advance, Machine.write_addr, Option.map_some', Outcome.isFault,
      wrapping_add]
  · obtain hsome | hsome := hsafe
    · exact absurd hsome hsp
    · obtain ⟨v, hv⟩ := Option.isSome_iff_exists.mp hsome
      simp only [Machine.execute_next, hins, Machine.ins_pop, Machine.pop_value, if_neg hsp, hv,
        Machine.write_and_advance, Machine.write_addr, Option.map_some', Outcome.isFault,
        wrapping_add]

/-- C4 (amended): for every machine state reachable from construction by
program loads, `write_addr` calls and executed instructions — `load_memory`
excluded, since it installs an arbitrary host vector — the physical memory
length never exceeds MAX_WORDS + 1 (not MAX_WORDS: a write at index exactly
MAX_WORDS is allowed by the strict guard and grows the vector to
MAX_WORDS + 1). -/
theorem reached_memory_at_most_max_words_succ (m : Machine) (h : Reached m) :
    m.memory.length ≤ m.max_words + 1 := by
  induction h with
  | new mw input => exact Nat.zero_le _
  | load_program p hr ih => exact ih
  | write_addr a v hr hw ih => exact (Machine.write_addr_pmb hw).2 ih
  | step hr hs ih => exact (Machine.execute_next_pmb hs).2 ih

theorem reached_memory_at_most_max_words_succ_witness :
    (Machine.new 128 []).memory.length ≤ (Machine.new 128 []).max_words + 1 :=
  reached_memory_at_most_max_words_succ (Machine.new 128 []) (Reached.new 128 [])

/-- C6: `run_for` cycle accounting.  Whenever `run_for N` returns, the cycle
count is at most `N`; a `Continue` result charges exactly `N`; and whenever
`k < N` steps of `execute_next` all return `Continue` and the next step
returns a terminal outcome, `run_for N` returns that outcome paired with
exactly `k` — the terminal step is not charged. -/
theorem run_for_cycle_accounting (m : Machine) (N : Nat) :
    (∀ m' o k, m.run_for N = some (m', o, k) →
      k ≤ N ∧ (o = Outcome.Continue → k = N)) ∧
    (∀ k mk m' o, k < N → m.continue_steps k = some mk →
      mk.execute_next = some (m', o) → o ≠ Outcome.Continue →
      m.run_for N = some (m', o, k)) :=
  ⟨fun m' o k h => Machine.run_for_le N m m' o k h,
   fun k mk m' o h1 h2 h3 h4 => Machine.run_for_of_steps k m mk m' o N h1 h2 h3 h4⟩

theorem run_for_cycle_accounting_witness :
    ((0 : Nat) ≤ 1 ∧ (Outcome.Halt = Outcome.Continue → (0 : Nat) = 1)) ∧
    (Machine.load_program (Machine.new 128 []) [Instruction.Halt]).run_for 1 =
      some (Machine.load_program (Machine.new 128 []) [Instruction.Halt],
        Outcome.Halt, 0) :=
  ⟨(run_for_cycle_accounting
      (Machine.load_program (Machine.new 128 []) [Instruction.Halt]) 1).1
      (Machine.load_program (Machine.new 128 []) [Instruction.Halt])
      Outcome.Halt 0 rfl,
   (run_for_cycle_accounting
      (Machine.load_program (Machine.new 128 []) [Instruction.Halt]) 1).2
      0 (Machine.load_program (Machine.new 128 []) [Instruction.Halt])
      (Machine.load_program (Machine.new 128 []) [Instruction.Halt])
      Outcome.Halt (by decide) rfl rfl (by decide)⟩

/-- C7: with distinct register operands `a = RegAbs ra`, `b = RegAbs rb`
holding words `u` and `v`, executing `Add(a, b)` stores (u + v) mod 2⁶⁴ into
`a`, and executing `Sub(a, b)` stores the integer (u − v) mod 2⁶⁴ into `a`;
operand `b` is left unchanged in both cases. -/
theorem add_sub_store_wrapped (m : Machine) (ra rb : Register) (u v : Nat)
    (hne : ra ≠ rb) (hu : m.read_register ra = u) (hv : m.read_register rb = v)
    (hu64 : u < wordSize) (hv64 : v < wordSize) :
    (m.program[m.ip]? = some (Instruction.Add (Address.RegAbs ra) (Address.RegAbs rb)) →
      (m.execute_next.map fun p => (p.1.read_register ra, p.1.read_register rb)) =
        some ((u + v) % wordSize, v)) ∧
    (m.program[m.ip]? = some (Instruction.Sub (Address.RegAbs ra) (Address.RegAbs rb)) →
      (m.execute_next.map fun p =>
          ((p.1.read_register ra : Int), (p.1.read_register rb : Int))) =
        some (((u : Int) - (v : Int)) % ((wordSize : Nat) : Int), (v : Int))) := by
  have key : ∀ (g : Nat → Nat → Nat) (w : Nat), g u v = w →
      m.ins_generic_scalar (Address.RegAbs ra) (Address.RegAbs rb) g =
        some (Machine.next_instr (m.write_register ra w)) := by
    intro g w hw
    show some (Machine.next_instr
      (m.write_register ra (g (m.read_register ra) (m.read_register rb)))) = _
    rw [hu, hv, hw]
  have post : ∀ w : Nat,
      ((some (Machine.next_instr (m.write_register ra w))).map
        fun p => (p.1.read_register ra, p.1.read_register rb)) = some (w, v) := by
    intro w
    rw [Option.map_some', Machine.next_instr_fst]
    simp only [Machine.read_register_set_ip, Machine.read_write_register_same,
      Machine.read_write_register_other (Ne.symm hne), hv]
  constructor
  · intro hins
    have h1 : m.execute_next =
        m.ins_generic_scalar (Address.RegAbs ra) (Address.RegAbs rb) wrapping_add := by
      unfold Machine.execute_next
      rw [hins]
    rw [h1, key wrapping_add ((u + v) % wordSize) rfl]
    exact post ((u + v) % wordSize)
  · intro hins
    have h1 : m.execute_next =
        m.ins_generic_scalar (Address.RegAbs ra) (Address.RegAbs rb) wrapping_sub := by
      unfold Machine.execute_next
      rw [hins]
    rw [h1, key wrapping_sub (wrapping_sub u v) rfl]
    rw [Option.map_some', Machine.next_instr_fst]
    simp only [Machine.read_register_set_ip, Machine.read_write_register_same,
      Machine.read_write_register_other (Ne.symm hne), hv]
    rw [wrapping_sub_int u v hv64]

theorem add_sub_store_wrapped_witness :
    ((Machine.execute_next
        { Machine.load_program (Machine.new 128 [])
            [Instruction.Add (Address.RegAbs Register.R0) (Address.RegAbs Register.R1)]
          with reg0 := 5, reg1 := 3 }).map
        fun p => (p.1.read_register Register.R0, p.1.read_register Register.R1)) =
      some (8, 3) ∧
    ((Machine.execute_next
        { Machine.load_program (Machine.new 128 [])
            [Instruction.Sub (Address.RegAbs Register.R0) (Address.RegAbs Register.R1)]
          with reg0 := 5, reg1 := 3 }).map
        fun p => ((p.1.read_register Register.R0 : Int),
          (p.1.read_register Register.R1 : Int))) = some (2, 3) := by
  constructor
  · have h := (add_sub_store_wrapped
      { Machine.load_program (Machine.new 128 [])
          [Instruction.Add (Address.RegAbs Register.R0) (Address.RegAbs Register.R1)]
        with reg0 := 5, reg1 := 3 }
      Register.R0 Register.R1 5 3 (by decide) rfl rfl (by decide) (by decide)).1 rfl
    exact h.trans (by decide)
  · have h := (add_sub_store_wrapped
      { Machine.load_program (Machine.new 128 [])
          [Instruction.Sub (Address.RegAbs Register.R0) (Address.RegAbs Register.R1)]
        with reg0 := 5, reg1 := 3 }
      Register.R0 Register.R1 5 3 (by decide) rfl rfl (by decide) (by decide)).2 rfl
    exact h.trans (by decide)

/-- C8: every well-formed `Program` round-trips exactly through the canonical
externally-tagged CBOR serialization: `decodeProgram (encodeProgram P) = some P`. -/
theorem decode_encode_program (P : Program) :
    decodeProgram (encodeProgram P) = some P := by
  show decodeInstructionList (P.map encodeInstruction) = some P
  exact decode_encode_instruction_list P

theorem pop_empty_stack_writes_zero_and_bumps_sp_witness :
    ((Machine.load_program (Machine.new 128 [])
        [Instruction.Pop (Address.RegAbs Register.R0), Instruction.Halt]).execute_next.map
        fun p => (p.1.read_register Register.R0, p.1.sp, p.1.ip)) = some (0, 128, 1) ∧
    ((Machine.load_program (Machine.new 128 [])
        [Instruction.Pop (Address.RegAbs Register.R0), Instruction.Halt]).execute_next.map
        fun p => p.2) = some Outcome.Continue := by
  have h := pop_empty_stack_writes_zero_and_bumps_sp
    (Machine.load_program (Machine.new 128 [])
      [Instruction.Pop (Address.RegAbs Register.R0), Instruction.Halt])
    Register.R0 (by decide) (by decide) rfl
  exact ⟨h.1.trans (by decide), h.2 (by decide)⟩

theorem push_discards_write_fault_witness :
    (({ Machine.load_program (Machine.new 128 [])
          [Instruction.Push (Address.Literal 7), Instruction.Halt]
        with sp := 200 } : Machine).execute_next.map
        fun p => (p.1.memory, p.1.ip)) = some ([], 1) ∧
    (({ Machine.load_program (Machine.new 128 [])
          [Instruction.Push (Address.Literal 7), Instruction.Halt]
        with sp := 200 } : Machine).execute_next.map
        fun p => p.2) = some Outcome.Continue := by
  have h := push_discards_write_fault
    { Machine.load_program (Machine.new 128 [])
        [Instruction.Push (Address.Literal 7), Instruction.Halt]
      with sp := 200 }
    (Address.Literal 7) 7 rfl rfl (by decide)
  exact ⟨h.1.trans (by decide), h.2 (by decide)⟩

theorem pop_literal_faults_after_sp_update_witness :
    ((Machine.load_program (Machine.new 128 [])
        [Instruction.Pop (Address.Literal 3)]).execute_next.map
        fun p => (p.1.sp, p.1.ip, p.2.isFault)) = some (128, 0, true) := by
  have h := pop_literal_faults_after_sp_update
    (Machine.load_program (Machine.new 128 []) [Instruction.Pop (Address.Literal 3)])
    3 rfl (Or.inl (by decide))
  exact h.trans (by decide)

end Mlem
